import Mathlib

/-!
Verification of the sudoku backtracking solver (`sudoku-solver.py`).

The grid is a 9×9 array of naturals, `0` meaning "empty".  Rows and
columns are 0-indexed; boxes are 1-indexed (per the source's comment).
All functions below are shallow embeddings of the Python functions of
the same name; the search stack (a Python `deque` used LIFO, appending
and popping on the right) is modelled as a Lean `List` whose head is
the top of the stack, so pushing the children `[c1, …, ck]` in order
yields the stack `ck :: … :: c1 :: rest`.
-/

set_option maxRecDepth 4000

namespace SudokuSolver

/-- A 9×9 sudoku board: entry `0` means the cell is unassigned. -/
abbrev Grid := Fin 9 → Fin 9 → Nat

/-- The literal `boxes` lookup table of the source: indexed by cell row
and column, yields the (1-indexed) box number. -/
def boxes : List (List Nat) :=
  [[1, 1, 1, 2, 2, 2, 3, 3, 3],
   [1, 1, 1, 2, 2, 2, 3, 3, 3],
   [1, 1, 1, 2, 2, 2, 3, 3, 3],
   [4, 4, 4, 5, 5, 5, 6, 6, 6],
   [4, 4, 4, 5, 5, 5, 6, 6, 6],
   [4, 4, 4, 5, 5, 5, 6, 6, 6],
   [7, 7, 7, 8, 8, 8, 9, 9, 9],
   [7, 7, 7, 8, 8, 8, 9, 9, 9],
   [7, 7, 7, 8, 8, 8, 9, 9, 9]]

/-- `which_box(row, col)`: box number of the cell, read off the `boxes`
table. -/
def which_box (row col : Fin 9) : Nat :=
  (boxes.getD row.val []).getD col.val 0

/-- The `box_num_to_view` dictionary: box number (1..9) to the slice
`(rows, cols)` of the board, each slice a half-open interval.  The
dictionary has no entry outside 1..9; we return the empty slice there
(the code never looks those up). -/
def box_num_to_view (n : Nat) : (Nat × Nat) × (Nat × Nat) :=
  match n with
  | 1 => ((0, 3), (0, 3)) | 2 => ((0, 3), (3, 6)) | 3 => ((0, 3), (6, 9))
  | 4 => ((3, 6), (0, 3)) | 5 => ((3, 6), (3, 6)) | 6 => ((3, 6), (6, 9))
  | 7 => ((6, 9), (0, 3)) | 8 => ((6, 9), (3, 6)) | 9 => ((6, 9), (6, 9))
  | _ => ((0, 0), (0, 0))

/-- The cells of the slice `box_num_to_view n`, in row-major order. -/
def boxCells (n : Nat) : List (Fin 9 × Fin 9) :=
  ((List.finRange 9).filter
      (fun r => decide ((box_num_to_view n).1.1 ≤ r.val ∧ r.val < (box_num_to_view n).1.2))).flatMap
    (fun r =>
      ((List.finRange 9).filter
          (fun c => decide ((box_num_to_view n).2.1 ≤ c.val ∧ c.val < (box_num_to_view n).2.2))).map
        (fun c => (r, c)))

/-- `get_box(board, box_num)`: the entries of the board in the given box
(a "view" in the source; here, the list of its 9 entries). -/
def get_box (board : Grid) (n : Nat) : List Nat :=
  (boxCells n).map (fun p => board p.1 p.2)

/-- Row `row` of the board, as the list `board[row, :]`. -/
def rowCells (board : Grid) (row : Fin 9) : List Nat :=
  (List.finRange 9).map (fun c => board row c)

/-- Column `col` of the board, as the list `board[:, col]`. -/
def colCells (board : Grid) (col : Fin 9) : List Nat :=
  (List.finRange 9).map (fun r => board r col)

/-- `move_is_valid(board, num, row, col)`: `num` appears nowhere in row
`row`, nowhere in column `col`, and nowhere in the box of `(row, col)`. -/
def move_is_valid (board : Grid) (num : Nat) (row col : Fin 9) : Bool :=
  (!decide (num ∈ rowCells board row))
    && (!decide (num ∈ colCells board col))
    && (!decide (num ∈ get_box board (which_box row col)))

/-- `board_is_full(board)` = `np.all(board)`: every entry is non-zero. -/
def board_is_full (board : Grid) : Bool :=
  (List.finRange 9).all (fun r => (List.finRange 9).all (fun c => board r c != 0))

/-- All 81 cells in row-major order (the enumeration order of
`np.argwhere`). -/
def allCells : List (Fin 9 × Fin 9) :=
  (List.finRange 9).flatMap (fun r => (List.finRange 9).map (fun c => (r, c)))

/-- The zero cells of the board in row-major order
(`np.argwhere(board == 0)`). -/
def zeroCells (board : Grid) : List (Fin 9 × Fin 9) :=
  allCells.filter (fun p => board p.1 p.2 == 0)

/-- `next_unassigned_cell(board)` = `np.argwhere(board == 0)[0]`: the
first zero cell in row-major order; `none` models the `IndexError` when
the board has no zero cell. -/
def next_unassigned_cell (board : Grid) : Option (Fin 9 × Fin 9) :=
  (zeroCells board).head?

/-- `np.copy` followed by `new_board[row, col] = num`: a fresh grid
equal to `board` except that cell `(row, col)` now holds `num`. -/
def setCell (board : Grid) (row col : Fin 9) (num : Nat) : Grid :=
  fun r c => if r = row ∧ c = col then num else board r c

/-- `gen_possible_boards(board, row, col)`: for `num` in 1..9 in order,
keep the copy of `board` with `(row, col) := num` whenever the move is
valid. -/
def gen_possible_boards (board : Grid) (row col : Fin 9) : List Grid :=
  (List.range' 1 9).filterMap
    (fun num => if move_is_valid board num row col then some (setCell board row col num) else none)

/-- Number of empty cells of a board (not a source function; the
termination measure of the search loop). -/
def numZeros (board : Grid) : Nat :=
  (Finset.univ.filter (fun p : Fin 9 × Fin 9 => board p.1 p.2 = 0)).card

/-- `10 ^ numZeros`: an upper bound on the number of loop iterations a
board popped from the stack can cause. -/
def boardMeasure (board : Grid) : Nat := 10 ^ numZeros board

/-- Sum of the board measures over a stack. -/
def stackMeasure (s : List Grid) : Nat := (s.map boardMeasure).sum

/-- The `while` loop of `solve_backtracking`, with explicit fuel: the
head of the list is the top of the stack.  `some r` means the loop
finished normally with the Python return value `r` (`none` = Python
`None`); the outer `none` means the fuel ran out or
`next_unassigned_cell` raised (which we prove never happens with fuel
at least `stackMeasure`). -/
def solveLoop : Nat → List Grid → Option (Option Grid)
  | _, [] => some none
  | 0, _ :: _ => none
  | fuel + 1, board :: rest =>
    if board_is_full board then some (some board)
    else
      match next_unassigned_cell board with
      | none => none
      | some (row, col) =>
        solveLoop fuel ((gen_possible_boards board row col).reverse ++ rest)

/-- `solve_backtracking(init_board)`: run the loop on the singleton
stack, with enough fuel to terminate. -/
def solve_backtracking (init_board : Grid) : Option Grid :=
  (solveLoop (stackMeasure [init_board]) [init_board]).getD none

/-- Python's `str.isdigit` for one character. Python's notion of digit is
Unicode-aware, not ASCII-only; this embedding models it exactly on the ASCII
range together with two representative non-ASCII code points that witness the
Unicode behaviour: `'٣'` (U+0663 ARABIC-INDIC DIGIT THREE) and `'²'`
(U+00B2 SUPERSCRIPT TWO) both satisfy `str.isdigit` in Python. Every other
non-ASCII character is treated as a non-digit, so the theorems below about
`parse_from_string` quantify over ASCII strings only, apart from the
counterexample, which uses only the modelled code points. -/
def pyIsDigit (ch : Char) : Bool :=
  ch.isDigit || decide (ch = '٣') || decide (ch = '²')

/-- Python's `int` applied to a one-character string: defined (with the
character's decimal value) exactly when the character is a decimal digit;
`none` models the `ValueError` raised otherwise — in particular on `'²'`,
which satisfies `str.isdigit` but is not a decimal digit. Same modelled
fragment of Unicode as `pyIsDigit`. -/
def pyCharInt (ch : Char) : Option Nat :=
  if ch.isDigit then some (ch.toNat - '0'.toNat)
  else if ch = '٣' then some 3
  else none

/-- `int(s[i]) if s[i].isdigit() else 0` for one character: `none` models
the `ValueError` path. -/
def charCell (ch : Char) : Option Nat :=
  if pyIsDigit ch then pyCharInt ch else some 0

/-- `parse_from_string(s)`: strings are modelled as `List Char`; the first
81 characters fill the 9×9 board row-major. `none` models the exceptions: a
string shorter than 81 characters raises `IndexError`, and a character that
satisfies `isdigit` without being a decimal digit makes `int` raise
`ValueError`. -/
def parse_from_string (s : List Char) : Option Grid :=
  if h : 81 ≤ s.length then
    if (List.finRange 81).all
        (fun i => (charCell (s.get ⟨i.val, by have := i.isLt; omega⟩)).isSome) then
      some (fun r c =>
        (charCell (s.get ⟨9 * r.val + c.val, by
          have hr := r.isLt; have hc := c.isLt; omega⟩)).getD 0)
    else none
  else none

/-- Two distinct cells are in the same "unit" when they share a row, a
column, or a box (box in the sense of the source's `boxes` table). -/
def sameUnit (p q : Fin 9 × Fin 9) : Prop :=
  p.1 = q.1 ∨ p.2 = q.2 ∨ which_box p.1 p.2 = which_box q.1 q.2

instance (p q : Fin 9 × Fin 9) : Decidable (sameUnit p q) := by
  unfold sameUnit; infer_instance

/-- The search invariant: every non-zero entry is unique within its
row, its column, and its box. -/
def validGrid (b : Grid) : Prop :=
  ∀ p q : Fin 9 × Fin 9, p ≠ q → b p.1 p.2 ≠ 0 → sameUnit p q →
    b p.1 p.2 ≠ b q.1 q.2

instance (b : Grid) : Decidable (validGrid b) := by
  unfold validGrid; infer_instance

/-- One branching step of the search: the board `g'` is one of the
children generated at the selected empty cell of `g`. -/
def SearchStep (g g' : Grid) : Prop :=
  ∃ row col : Fin 9,
    next_unassigned_cell g = some (row, col) ∧ g' ∈ gen_possible_boards g row col

/-- Boards reachable from `g` by branching steps (every board that ever
sits on the search stack is reachable from the initial board). -/
def Reachable : Grid → Grid → Prop := Relation.ReflTransGen SearchStep

/-- Row-major rank of a cell. -/
def rank (p : Fin 9 × Fin 9) : Nat := 9 * p.1.val + p.2.val

/-- A concrete full, valid board (used to instantiate theorems). -/
def solvedGrid : Grid := fun r c => (3 * (r.val % 3) + r.val / 3 + c.val) % 9 + 1

/-- A concrete board with a single given `1` at `(0,0)`. -/
def oneGrid : Grid := fun r c => if r.val = 0 ∧ c.val = 0 then 1 else 0

/-- A concrete board whose first empty cell `(0,0)` admits no legal
digit: row 0 holds 1..8 and `(1,0)` holds 9. -/
def deadGrid : Grid := fun r c =>
  if r.val = 0 ∧ c.val ≠ 0 then c.val
  else if r.val = 1 ∧ c.val = 0 then 9 else 0

/-! ## Basic lemmas -/

theorem head?_mem {α : Type} {l : List α} {a : α} (h : l.head? = some a) : a ∈ l := by
  cases l with
  | nil => simp at h
  | cons x xs =>
    simp only [List.head?_cons, Option.some.injEq] at h
    exact h ▸ List.mem_cons_self x xs

theorem mem_allCells (p : Fin 9 × Fin 9) : p ∈ allCells := by
  simp only [allCells, List.mem_flatMap, List.mem_map]
  exact ⟨p.1, List.mem_finRange _, p.2, List.mem_finRange _, rfl⟩

theorem mem_zeroCells_iff {g : Grid} {p : Fin 9 × Fin 9} :
    p ∈ zeroCells g ↔ g p.1 p.2 = 0 := by
  simp [zeroCells, List.mem_filter, mem_allCells]

theorem next_cell_zero {g : Grid} {r c : Fin 9}
    (h : next_unassigned_cell g = some (r, c)) : g r c = 0 :=
  mem_zeroCells_iff.1 (head?_mem h)

theorem next_cell_isSome {g : Grid} {r c : Fin 9} (h : g r c = 0) :
    (next_unassigned_cell g).isSome := by
  have hmem : (r, c) ∈ zeroCells g := mem_zeroCells_iff.2 h
  unfold next_unassigned_cell
  cases hz : zeroCells g with
  | nil => rw [hz] at hmem; simp at hmem
  | cons a t => simp

theorem board_is_full_iff {g : Grid} :
    board_is_full g = true ↔ ∀ r c, g r c ≠ 0 := by
  simp [board_is_full]

theorem not_full_exists_zero {g : Grid} (h : board_is_full g = false) :
    ∃ r c, g r c = 0 := by
  by_contra hno
  push_neg at hno
  have : board_is_full g = true := board_is_full_iff.2 hno
  rw [h] at this; exact Bool.false_ne_true this

/-! ## Box geometry -/

theorem boxCells_whichBox :
    ∀ (b : Fin 9) (p : Fin 9 × Fin 9),
      p ∈ boxCells (b.val + 1) ↔ which_box p.1 p.2 = b.val + 1 := by decide

theorem whichBox_shift : ∀ q : Fin 9 × Fin 9, ∃ b : Fin 9, which_box q.1 q.2 = b.val + 1 := by
  decide

theorem mem_boxCells_iff (p q : Fin 9 × Fin 9) :
    p ∈ boxCells (which_box q.1 q.2) ↔ which_box p.1 p.2 = which_box q.1 q.2 := by
  obtain ⟨b, hb⟩ := whichBox_shift q
  rw [hb]
  exact boxCells_whichBox b p

theorem mem_rowCells {g : Grid} (r c : Fin 9) : g r c ∈ rowCells g r :=
  List.mem_map.2 ⟨c, List.mem_finRange _, rfl⟩

theorem mem_colCells {g : Grid} (r c : Fin 9) : g r c ∈ colCells g c :=
  List.mem_map.2 ⟨r, List.mem_finRange _, rfl⟩

theorem mem_get_box_self {g : Grid} (q : Fin 9 × Fin 9) :
    g q.1 q.2 ∈ get_box g (which_box q.1 q.2) :=
  List.mem_map.2 ⟨q, (mem_boxCells_iff q q).2 rfl, rfl⟩

/-! ## The constraint checker -/

theorem move_is_valid_true_iff {g : Grid} {num : Nat} {row col : Fin 9} :
    move_is_valid g num row col = true ↔
      num ∉ rowCells g row ∧ num ∉ colCells g col ∧
        num ∉ get_box g (which_box row col) := by
  simp [move_is_valid, and_assoc]

/-! ## The branch generator -/

theorem setCell_same {g : Grid} {row col : Fin 9} {num : Nat} :
    setCell g row col num row col = num := by
  simp [setCell]

theorem setCell_other {g : Grid} {row col r c : Fin 9} {num : Nat}
    (h : ¬(r = row ∧ c = col)) : setCell g row col num r c = g r c := by
  simp only [setCell, if_neg h]

theorem mem_gen_iff {g : Grid} {row col : Fin 9} {b : Grid} :
    b ∈ gen_possible_boards g row col ↔
      ∃ num, 1 ≤ num ∧ num ≤ 9 ∧ move_is_valid g num row col = true ∧
        b = setCell g row col num := by
  unfold gen_possible_boards
  rw [List.mem_filterMap]
  constructor
  · rintro ⟨num, hmem, heq⟩
    rw [List.mem_range'_1] at hmem
    split at heq
    · exact ⟨num, hmem.1, by omega, by assumption, (Option.some.inj heq).symm⟩
    · exact absurd heq (by simp)
  · rintro ⟨num, h1, h9, hv, rfl⟩
    exact ⟨num, List.mem_range'_1.2 ⟨h1, by omega⟩, by rw [if_pos hv]⟩

theorem validGrid_setCell {g : Grid} {row col : Fin 9} {num : Nat}
    (hv : validGrid g)
    (hm : move_is_valid g num row col = true) :
    validGrid (setCell g row col num) := by
  rw [move_is_valid_true_iff] at hm
  obtain ⟨hrow, hcol, hbox⟩ := hm
  rintro ⟨pr, pc⟩ ⟨qr, qc⟩ hpq hp0 hshare
  simp only [sameUnit] at hshare
  dsimp only at hshare hp0 ⊢
  by_cases hp : pr = row ∧ pc = col <;> by_cases hq : qr = row ∧ qc = col
  · exact absurd (Prod.ext (hp.1.trans hq.1.symm) (hp.2.trans hq.2.symm)) hpq
  · -- the updated cell against an old cell
    rw [hp.1, hp.2] at hshare ⊢
    rw [setCell_same, setCell_other hq]
    rcases hshare with hs | hs | hs
    · intro he; apply hrow; rw [he, hs]; exact mem_rowCells qr qc
    · intro he; apply hcol; rw [he, hs]; exact mem_colCells qr qc
    · intro he; apply hbox; rw [he, hs]; exact mem_get_box_self (qr, qc)
  · -- an old cell against the updated cell
    rw [hq.1, hq.2] at hshare ⊢
    rw [setCell_same, setCell_other hp]
    rw [setCell_other hp] at hp0
    rcases hshare with hs | hs | hs
    · intro he; apply hrow; rw [← he, ← hs]; exact mem_rowCells pr pc
    · intro he; apply hcol; rw [← he, ← hs]; exact mem_colCells pr pc
    · intro he; apply hbox; rw [← he, ← hs]; exact mem_get_box_self (pr, pc)
  · -- two old cells: the original invariant applies
    rw [setCell_other hp, setCell_other hq]
    rw [setCell_other hp] at hp0
    exact hv (pr, pc) (qr, qc) hpq hp0 hshare

theorem gen_valid {g : Grid} {row col : Fin 9} (hv : validGrid g) :
    ∀ g' ∈ gen_possible_boards g row col, validGrid g' := by
  intro g' hg'
  obtain ⟨num, _, _, hm, rfl⟩ := mem_gen_iff.1 hg'
  exact validGrid_setCell hv hm

/-! ## The termination measure -/

theorem numZeros_pos {g : Grid} {r c : Fin 9} (h : g r c = 0) : 1 ≤ numZeros g :=
  Finset.card_pos.2 ⟨(r, c), Finset.mem_filter.2 ⟨Finset.mem_univ _, h⟩⟩

theorem numZeros_setCell {g : Grid} {row col : Fin 9} {num : Nat}
    (h0 : g row col = 0) (hnum : num ≠ 0) :
    numZeros (setCell g row col num) + 1 = numZeros g := by
  have hmem : (row, col) ∈ Finset.univ.filter (fun p : Fin 9 × Fin 9 => g p.1 p.2 = 0) :=
    Finset.mem_filter.2 ⟨Finset.mem_univ _, h0⟩
  have hset : Finset.univ.filter (fun p : Fin 9 × Fin 9 => setCell g row col num p.1 p.2 = 0)
      = (Finset.univ.filter (fun p : Fin 9 × Fin 9 => g p.1 p.2 = 0)).erase (row, col) := by
    ext ⟨r, c⟩
    simp only [Finset.mem_filter, Finset.mem_erase, Finset.mem_univ, true_and, setCell]
    constructor
    · intro hz
      by_cases hrc : r = row ∧ c = col
      · rw [if_pos hrc] at hz; exact absurd hz hnum
      · refine ⟨fun he => hrc ⟨congrArg Prod.fst he, congrArg Prod.snd he⟩, ?_⟩
        rwa [if_neg hrc] at hz
    · rintro ⟨hne, hz⟩
      have hrc : ¬(r = row ∧ c = col) := fun hc => hne (Prod.ext hc.1 hc.2)
      rw [if_neg hrc]; exact hz
  have hpos : 1 ≤ (Finset.univ.filter (fun p : Fin 9 × Fin 9 => g p.1 p.2 = 0)).card :=
    Finset.card_pos.2 ⟨_, hmem⟩
  rw [numZeros, numZeros, hset, Finset.card_erase_of_mem hmem]
  omega

theorem gen_numZeros {g : Grid} {row col : Fin 9} (h0 : g row col = 0) :
    ∀ b ∈ gen_possible_boards g row col, numZeros b + 1 = numZeros g := by
  intro b hb
  obtain ⟨num, h1, _, _, rfl⟩ := mem_gen_iff.1 hb
  exact numZeros_setCell h0 (by omega)

theorem stackMeasure_cons (g : Grid) (rest : List Grid) :
    stackMeasure (g :: rest) = boardMeasure g + stackMeasure rest := by
  simp [stackMeasure]

theorem stackMeasure_append (l₁ l₂ : List Grid) :
    stackMeasure (l₁ ++ l₂) = stackMeasure l₁ + stackMeasure l₂ := by
  simp [stackMeasure]

theorem stackMeasure_reverse (l : List Grid) : stackMeasure l.reverse = stackMeasure l := by
  simp [stackMeasure, List.sum_reverse]

theorem boardMeasure_pos (g : Grid) : 1 ≤ boardMeasure g :=
  Nat.one_le_pow _ _ (by norm_num)

theorem stackMeasure_step {g : Grid} {row col : Fin 9} (rest : List Grid)
    (h0 : g row col = 0) :
    stackMeasure ((gen_possible_boards g row col).reverse ++ rest) + 1
      ≤ stackMeasure (g :: rest) := by
  rw [stackMeasure_append, stackMeasure_reverse, stackMeasure_cons]
  have hz : 1 ≤ numZeros g := numZeros_pos h0
  have hlen : (gen_possible_boards g row col).length ≤ 9 := by
    have h := List.length_filterMap_le
      (fun num => if move_is_valid g num row col then some (setCell g row col num) else none)
      (List.range' 1 9)
    simpa [gen_possible_boards] using h
  have hsum : stackMeasure (gen_possible_boards g row col)
      = (gen_possible_boards g row col).length * 10 ^ (numZeros g - 1) := by
    unfold stackMeasure
    rw [List.sum_eq_card_nsmul _ (10 ^ (numZeros g - 1))]
    · simp [List.length_map]
    · intro x hx
      obtain ⟨b, hb, rfl⟩ := List.mem_map.1 hx
      have hnb := gen_numZeros h0 b hb
      unfold boardMeasure
      congr 1
      omega
  rw [hsum]
  have hpow : 1 ≤ 10 ^ (numZeros g - 1) := Nat.one_le_pow _ _ (by norm_num)
  have h10 : boardMeasure g = 10 * 10 ^ (numZeros g - 1) := by
    unfold boardMeasure
    rw [← pow_succ']
    congr 1
    omega
  rw [h10]
  have hmul : (gen_possible_boards g row col).length * 10 ^ (numZeros g - 1)
      ≤ 9 * 10 ^ (numZeros g - 1) := Nat.mul_le_mul_right _ hlen
  linarith

/-! ## The search loop -/

theorem next_cell_some_of_not_full {g : Grid} (h : board_is_full g = false) :
    ∃ p, next_unassigned_cell g = some p := by
  obtain ⟨r, c, hz⟩ := not_full_exists_zero h
  have hs := next_cell_isSome hz
  exact ⟨(next_unassigned_cell g).get hs, (Option.some_get hs).symm⟩

theorem solveLoop_nil (fuel : Nat) : solveLoop fuel [] = some none := by
  cases fuel <;> rfl

theorem solveLoop_full {g : Grid} (fuel : Nat) (rest : List Grid)
    (hfull : board_is_full g = true) :
    solveLoop (fuel + 1) (g :: rest) = some (some g) := by
  simp [solveLoop, hfull]

theorem solveLoop_step {g : Grid} {row col : Fin 9} (fuel : Nat) (rest : List Grid)
    (hfull : board_is_full g = false)
    (hnext : next_unassigned_cell g = some (row, col)) :
    solveLoop (fuel + 1) (g :: rest)
      = solveLoop fuel ((gen_possible_boards g row col).reverse ++ rest) := by
  simp [solveLoop, hfull, hnext]

theorem solveLoop_stuck {g : Grid} (fuel : Nat) (rest : List Grid)
    (hfull : board_is_full g = false)
    (hnext : next_unassigned_cell g = none) :
    solveLoop (fuel + 1) (g :: rest) = none := by
  simp [solveLoop, hfull, hnext]

theorem bool_eq_false {b : Bool} (h : ¬b = true) : b = false := by
  cases b
  · rfl
  · exact absurd rfl h

theorem solveLoop_total : ∀ (fuel : Nat) (s : List Grid), stackMeasure s ≤ fuel →
    ∃ r, solveLoop fuel s = some r := by
  intro fuel
  induction fuel with
  | zero =>
    intro s hs
    cases s with
    | nil => exact ⟨none, rfl⟩
    | cons g rest =>
      exfalso
      rw [stackMeasure_cons] at hs
      have := boardMeasure_pos g
      omega
  | succ fuel ih =>
    intro s hs
    cases s with
    | nil => exact ⟨none, rfl⟩
    | cons g rest =>
      by_cases hfull : board_is_full g = true
      · exact ⟨some g, solveLoop_full fuel rest hfull⟩
      · have hfull' : board_is_full g = false := bool_eq_false hfull
        obtain ⟨⟨row, col⟩, hnext⟩ := next_cell_some_of_not_full hfull'
        have hz : g row col = 0 := next_cell_zero hnext
        have hm := stackMeasure_step (g := g) rest hz
        rw [stackMeasure_cons] at hm hs
        obtain ⟨r, hr⟩ := ih ((gen_possible_boards g row col).reverse ++ rest) (by omega)
        exact ⟨r, (solveLoop_step fuel rest hfull' hnext).trans hr⟩

theorem solveLoop_mono : ∀ (fuel : Nat) (s : List Grid) (r : Option Grid),
    solveLoop fuel s = some r → ∀ fuel₂, fuel ≤ fuel₂ → solveLoop fuel₂ s = some r := by
  intro fuel
  induction fuel with
  | zero =>
    intro s r h fuel₂ _
    cases s with
    | nil => rw [solveLoop_nil] at h; rw [solveLoop_nil]; exact h
    | cons g rest => exact absurd h (by simp [solveLoop])
  | succ fuel ih =>
    intro s r h fuel₂ hle
    cases s with
    | nil => rw [solveLoop_nil] at h; rw [solveLoop_nil]; exact h
    | cons g rest =>
      cases fuel₂ with
      | zero => omega
      | succ f₂ =>
        by_cases hfull : board_is_full g = true
        · rw [solveLoop_full fuel rest hfull] at h
          rw [solveLoop_full f₂ rest hfull]
          exact h
        · have hfull' : board_is_full g = false := bool_eq_false hfull
          cases hnext : next_unassigned_cell g with
          | none => rw [solveLoop_stuck fuel rest hfull' hnext] at h; exact absurd h (by simp)
          | some p =>
            obtain ⟨row, col⟩ := p
            rw [solveLoop_step fuel rest hfull' hnext] at h
            rw [solveLoop_step f₂ rest hfull' hnext]
            exact ih _ _ h _ (by omega)

theorem solveLoop_sound : ∀ (fuel : Nat) (s : List Grid) (sol : Grid),
    (∀ b ∈ s, validGrid b) → solveLoop fuel s = some (some sol) →
    board_is_full sol = true ∧ validGrid sol := by
  intro fuel
  induction fuel with
  | zero =>
    intro s sol hv h
    cases s with
    | nil => rw [solveLoop_nil] at h; exact absurd h (by simp)
    | cons g rest => exact absurd h (by simp [solveLoop])
  | succ fuel ih =>
    intro s sol hv h
    cases s with
    | nil => rw [solveLoop_nil] at h; exact absurd h (by simp)
    | cons g rest =>
      by_cases hfull : board_is_full g = true
      · rw [solveLoop_full fuel rest hfull] at h
        have hg : g = sol := Option.some.inj (Option.some.inj h)
        exact hg ▸ ⟨hfull, hv g (List.mem_cons_self _ _)⟩
      · have hfull' : board_is_full g = false := bool_eq_false hfull
        cases hnext : next_unassigned_cell g with
        | none => rw [solveLoop_stuck fuel rest hfull' hnext] at h; exact absurd h (by simp)
        | some p =>
          obtain ⟨row, col⟩ := p
          rw [solveLoop_step fuel rest hfull' hnext] at h
          apply ih _ _ _ h
          intro b hb
          rcases List.mem_append.1 hb with hb | hb
          · exact gen_valid (hv g (List.mem_cons_self _ _)) b (List.mem_reverse.1 hb)
          · exact hv b (List.mem_cons_of_mem _ hb)

/-! ## Exploration order -/

theorem filter_head_first {α : Type} {R : α → α → Prop} {p : α → Bool} :
    ∀ l : List α, l.Pairwise R → ∀ {x : α},
      (l.filter p).head? = some x → ∀ y ∈ l, p y = true → y = x ∨ R x y := by
  intro l
  induction l with
  | nil => intro _ x hx; simp at hx
  | cons a t ih =>
    intro hl x hx y hy hpy
    rw [List.pairwise_cons] at hl
    cases hpa : p a with
    | true =>
      rw [List.filter_cons_of_pos hpa] at hx
      simp only [List.head?_cons, Option.some.injEq] at hx
      subst hx
      rcases List.mem_cons.1 hy with rfl | hy'
      · exact Or.inl rfl
      · exact Or.inr (hl.1 y hy')
    | false =>
      rw [List.filter_cons_of_neg (by simp [hpa])] at hx
      rcases List.mem_cons.1 hy with rfl | hy'
      · rw [hpy] at hpa; exact absurd hpa (by simp)
      · exact ih hl.2 hx y hy' hpy

theorem allCells_pairwise : allCells.Pairwise (fun p q => rank p < rank q) := by decide

theorem next_cell_first {g : Grid} {r c : Fin 9}
    (h : next_unassigned_cell g = some (r, c)) :
    ∀ r' c' : Fin 9, rank (r', c') < rank (r, c) → g r' c' ≠ 0 := by
  intro r' c' hlt hz
  have h' : (allCells.filter (fun p => g p.1 p.2 == 0)).head? = some (r, c) := h
  have hfirst := filter_head_first allCells allCells_pairwise h' (r', c')
    (mem_allCells _) (by simpa using hz)
  rcases hfirst with he | hgt
  · rw [he] at hlt; exact lt_irrefl _ hlt
  · omega

theorem gen_digits (g : Grid) (row col : Fin 9) :
    (gen_possible_boards g row col).map (fun b => b row col)
      = (List.range' 1 9).filter (fun num => move_is_valid g num row col) := by
  unfold gen_possible_boards
  generalize (List.range' 1 9) = l
  induction l with
  | nil => rfl
  | cons a t ih =>
    cases hm : move_is_valid g a row col with
    | true => simp [List.filterMap_cons, List.filter_cons, hm, ih, setCell_same]
    | false => simp [List.filterMap_cons, List.filter_cons, hm, ih]

theorem reverse_append_head {cs : List Grid} (rest : List Grid) (h : cs ≠ []) :
    (cs.reverse ++ rest).head? = cs.getLast? := by
  rw [← List.head?_reverse]
  cases hc : cs.reverse with
  | nil => rw [List.reverse_eq_nil_iff] at hc; exact absurd hc h
  | cons a t => rfl

/-! ## The parser -/

theorem isDigit_iff {ch : Char} : ch.isDigit = true ↔ 48 ≤ ch.toNat ∧ ch.toNat ≤ 57 := by
  simp only [Char.isDigit, ge_iff_le, Bool.and_eq_true, decide_eq_true_eq]
  exact Iff.rfl

theorem char_range_iff {ch : Char} :
    ('1' ≤ ch ∧ ch ≤ '9') ↔ (49 ≤ ch.toNat ∧ ch.toNat ≤ 57) := Iff.rfl

theorem charCell_ascii (ch : Char) (h : ch.toNat < 128) :
    charCell ch = some (if '1' ≤ ch ∧ ch ≤ '9' then ch.toNat - '0'.toNat else 0) := by
  have h3 : ch ≠ '٣' := by intro he; rw [he] at h; exact absurd h (by decide)
  have h2 : ch ≠ '²' := by intro he; rw [he] at h; exact absurd h (by decide)
  have hpy : pyIsDigit ch = ch.isDigit := by
    unfold pyIsDigit
    simp [h3, h2]
  unfold charCell
  rw [hpy]
  by_cases hd : ch.isDigit
  · rw [if_pos hd]
    unfold pyCharInt
    rw [if_pos hd]
    congr 1
    obtain ⟨h48, h57⟩ := isDigit_iff.1 hd
    by_cases h9 : '1' ≤ ch ∧ ch ≤ '9'
    · rw [if_pos h9]
    · rw [if_neg h9]
      rw [char_range_iff] at h9
      have h0 : ('0' : Char).toNat = 48 := by decide
      omega
  · rw [if_neg hd]
    congr 1
    by_cases h9 : '1' ≤ ch ∧ ch ≤ '9'
    · exfalso
      apply hd
      rw [isDigit_iff]
      rw [char_range_iff] at h9
      omega
    · rw [if_neg h9]

theorem digitValue_le (ch : Char) :
    (if '1' ≤ ch ∧ ch ≤ '9' then ch.toNat - '0'.toNat else 0) ≤ 9 := by
  by_cases h9 : '1' ≤ ch ∧ ch ≤ '9'
  · rw [if_pos h9]
    rw [char_range_iff] at h9
    have h0 : ('0' : Char).toNat = 48 := by decide
    omega
  · rw [if_neg h9]; omega

theorem charCell_le {ch : Char} {v : Nat} (h : charCell ch = some v) : v ≤ 9 := by
  by_cases hd : ch.isDigit
  · have hh : charCell ch = some (ch.toNat - '0'.toNat) := by
      unfold charCell pyIsDigit pyCharInt
      simp [hd]
    rw [hh] at h
    have hv := Option.some.inj h
    obtain ⟨h48, h57⟩ := isDigit_iff.1 hd
    have h0 : ('0' : Char).toNat = 48 := by decide
    omega
  · by_cases h3 : ch = '٣'
    · subst h3
      rw [show charCell '٣' = some 3 from by decide] at h
      have hv := Option.some.inj h
      omega
    · by_cases h2 : ch = '²'
      · subst h2
        rw [show charCell '²' = none from by decide] at h
        exact absurd h (by simp)
      · have hh : charCell ch = some 0 := by
          unfold charCell pyIsDigit
          simp [hd, h3, h2]
        rw [hh] at h
        have hv := Option.some.inj h
        omega

/-! ## The solver on full boards -/

theorem solve_backtracking_full {g : Grid} (hfull : board_is_full g = true) :
    solve_backtracking g = some g := by
  have hz : numZeros g = 0 := by
    unfold numZeros
    rw [Finset.card_eq_zero, Finset.filter_eq_empty_iff]
    intro p _
    exact board_is_full_iff.1 hfull p.1 p.2
  have hm : stackMeasure [g] = 1 := by
    simp [stackMeasure, boardMeasure, hz]
  unfold solve_backtracking
  rw [hm]
  have hstep : solveLoop 1 [g] = some (some g) := solveLoop_full 0 [] hfull
  rw [hstep]
  rfl

/-! ## The claims -/

/-- Claim C1: for every initial 9×9 grid whose entries are in 0..9 and whose
non-zero entries satisfy row/column/box uniqueness, if `solve_backtracking`
returns a grid (rather than `None`), the returned grid has no zero entries and
every cell's digit is unique within its row, its column, and its 3×3 box. -/
theorem C1_solver_output_is_solved (g sol : Grid)
    (h9 : ∀ r c : Fin 9, g r c ≤ 9) (hv : validGrid g)
    (hres : solve_backtracking g = some sol) :
    (∀ r c : Fin 9, sol r c ≠ 0) ∧ validGrid sol := by
  unfold solve_backtracking at hres
  cases hL : solveLoop (stackMeasure [g]) [g] with
  | none => rw [hL] at hres; exact absurd hres (by simp)
  | some r =>
    rw [hL] at hres
    simp only [Option.getD_some] at hres
    subst hres
    have hs := solveLoop_sound (stackMeasure [g]) [g] sol
      (by intro b hb; rw [List.mem_singleton] at hb; subst hb; exact hv) hL
    exact ⟨board_is_full_iff.1 hs.1, hs.2⟩

theorem C1_solver_output_is_solved_witness :
    (∀ r c : Fin 9, solvedGrid r c ≤ 9) ∧ validGrid solvedGrid ∧
      solve_backtracking solvedGrid = some solvedGrid ∧
      ((∀ r c : Fin 9, solvedGrid r c ≠ 0) ∧ validGrid solvedGrid) := by
  refine ⟨by decide, by decide, solve_backtracking_full (by decide), ?_⟩
  exact C1_solver_output_is_solved solvedGrid solvedGrid (by decide) (by decide)
    (solve_backtracking_full (by decide))

/-- Claim C2: placing any legal digit at any empty cell of a grid whose
non-zero entries satisfy row/column/box uniqueness yields a grid that still
satisfies the invariant; hence every grid reachable by branching steps from a
valid initial grid satisfies it. -/
theorem C2_invariant_preserved :
    (∀ (g : Grid) (row col : Fin 9) (g' : Grid), validGrid g → g row col = 0 →
        g' ∈ gen_possible_boards g row col → validGrid g')
      ∧ ∀ g0 g : Grid, validGrid g0 → Reachable g0 g → validGrid g := by
  constructor
  · intro g row col g' hv _ hg'
    exact gen_valid hv g' hg'
  · intro g0 g hv hr
    induction hr with
    | refl => exact hv
    | tail _ hstep ih =>
      obtain ⟨row, col, _, hmem⟩ := hstep
      exact gen_valid ih _ hmem

theorem C2_invariant_preserved_witness :
    validGrid oneGrid ∧ oneGrid 0 1 = 0 ∧
      setCell oneGrid 0 1 2 ∈ gen_possible_boards oneGrid 0 1 ∧
      validGrid (setCell oneGrid 0 1 2) := by
  refine ⟨by decide, by decide, by decide, ?_⟩
  exact C2_invariant_preserved.1 oneGrid 0 1 _ (by decide) (by decide) (by decide)

/-- Claim C3: for a grid with `grid[r][c] = 0` and a digit `d` in 1..9,
`move_is_valid` returns `false` iff `d` already appears somewhere in row `r`,
somewhere in column `c`, or somewhere in the 3×3 box containing `(r, c)`. -/
theorem C3_move_validity_iff (g : Grid) (row col : Fin 9) (d : Nat)
    (_h0 : g row col = 0) (_h1 : 1 ≤ d) (_h9 : d ≤ 9) :
    move_is_valid g d row col = false ↔
      (∃ c : Fin 9, g row c = d) ∨ (∃ r : Fin 9, g r col = d) ∨
        (∃ r c : Fin 9, which_box r c = which_box row col ∧ g r c = d) := by
  have hmem_row : d ∈ rowCells g row ↔ ∃ c : Fin 9, g row c = d := by
    simp [rowCells, List.mem_map, eq_comm]
  have hmem_col : d ∈ colCells g col ↔ ∃ r : Fin 9, g r col = d := by
    simp [colCells, List.mem_map, eq_comm]
  have hmem_box : d ∈ get_box g (which_box row col) ↔
      ∃ r c : Fin 9, which_box r c = which_box row col ∧ g r c = d := by
    simp only [get_box, List.mem_map]
    constructor
    · rintro ⟨⟨r, c⟩, hmem, heq⟩
      exact ⟨r, c, (mem_boxCells_iff (r, c) (row, col)).1 hmem, heq⟩
    · rintro ⟨r, c, hbox, heq⟩
      exact ⟨(r, c), (mem_boxCells_iff (r, c) (row, col)).2 hbox, heq⟩
  have key : move_is_valid g d row col = false ↔
      d ∈ rowCells g row ∨ d ∈ colCells g col ∨ d ∈ get_box g (which_box row col) := by
    rw [Bool.eq_false_iff, Ne, move_is_valid_true_iff]
    constructor
    · intro h
      by_contra hno
      push_neg at hno
      exact h ⟨hno.1, hno.2.1, hno.2.2⟩
    · rintro (h | h | h) hc
      · exact hc.1 h
      · exact hc.2.1 h
      · exact hc.2.2 h
  rw [key, hmem_row, hmem_col, hmem_box]

theorem C3_move_validity_iff_witness :
    oneGrid 0 1 = 0 ∧ 1 ≤ 1 ∧ 1 ≤ 9 ∧
      (move_is_valid oneGrid 1 0 1 = false ↔
        (∃ c : Fin 9, oneGrid 0 c = 1) ∨ (∃ r : Fin 9, oneGrid r 1 = 1) ∨
          (∃ r c : Fin 9, which_box r c = which_box 0 1 ∧ oneGrid r c = 1)) :=
  ⟨by decide, by decide, by decide,
    C3_move_validity_iff oneGrid 0 1 1 (by decide) (by decide) (by decide)⟩

/-- Claim C4: the search explores states in a fixed deterministic order:
`next_unassigned_cell` returns the first empty cell in row-major order,
`gen_possible_boards` produces one child per legal digit in ascending order
1..9, and the loop pushes the children in that order onto the LIFO stack so
the last-pushed child (the highest legal digit) is popped next. -/
theorem C4_exploration_order :
    (∀ (g : Grid) (r c : Fin 9), g r c = 0 → (next_unassigned_cell g).isSome)
    ∧ (∀ (g : Grid) (r c : Fin 9), next_unassigned_cell g = some (r, c) →
        g r c = 0 ∧ ∀ r' c' : Fin 9,
          (r'.val < r.val ∨ (r' = r ∧ c'.val < c.val)) → g r' c' ≠ 0)
    ∧ (∀ (g : Grid) (r c : Fin 9),
        (gen_possible_boards g r c).map (fun b => b r c)
          = (List.range' 1 9).filter (fun d => move_is_valid g d r c))
    ∧ ∀ (g : Grid) (rest : List Grid) (r c : Fin 9) (fuel : Nat),
        board_is_full g = false → next_unassigned_cell g = some (r, c) →
        solveLoop (fuel + 1) (g :: rest)
            = solveLoop fuel ((gen_possible_boards g r c).reverse ++ rest)
          ∧ (gen_possible_boards g r c ≠ [] →
              ((gen_possible_boards g r c).reverse ++ rest).head?
                = (gen_possible_boards g r c).getLast?) := by
  refine ⟨?_, ?_, gen_digits, ?_⟩
  · intro g r c h
    exact next_cell_isSome h
  · intro g r c h
    refine ⟨next_cell_zero h, ?_⟩
    intro r' c' hlt
    apply next_cell_first h
    unfold rank
    dsimp only
    rcases hlt with h1 | ⟨h1, h2⟩
    · have hc' := c'.isLt
      have hc := c.isLt
      omega
    · subst h1
      omega
  · intro g rest r c fuel hfull hnext
    exact ⟨solveLoop_step fuel rest hfull hnext, fun hne => reverse_append_head rest hne⟩

theorem C4_exploration_order_witness :
    board_is_full oneGrid = false ∧ next_unassigned_cell oneGrid = some (0, 1) ∧
      solveLoop 1 (oneGrid :: []) = solveLoop 0 ((gen_possible_boards oneGrid 0 1).reverse ++ []) := by
  refine ⟨by decide, by decide, ?_⟩
  exact (C4_exploration_order.2.2.2 oneGrid [] 0 1 0 (by decide) (by decide)).1

/-- Claim C5: for every initial grid with entries in 0..9 whose non-zero
entries satisfy the uniqueness invariant, the search loop terminates after
finitely many iterations (`stackMeasure [g]` fuel suffices, and more fuel
does not change the result); every child pushed on the stack has strictly
fewer empty cells than its parent. -/
theorem C5_search_terminates (g : Grid)
    (_h9 : ∀ r c : Fin 9, g r c ≤ 9) (_hv : validGrid g) :
    (∃ res : Option Grid, solveLoop (stackMeasure [g]) [g] = some res ∧
        ∀ fuel, stackMeasure [g] ≤ fuel → solveLoop fuel [g] = some res)
      ∧ ∀ (row col : Fin 9) (b : Grid), g row col = 0 →
          b ∈ gen_possible_boards g row col → numZeros b < numZeros g := by
  constructor
  · obtain ⟨r, hr⟩ := solveLoop_total (stackMeasure [g]) [g] le_rfl
    exact ⟨r, hr, fun fuel hf => solveLoop_mono _ _ _ hr fuel hf⟩
  · intro row col b h0 hb
    have hn := gen_numZeros h0 b hb
    omega

theorem C5_search_terminates_witness :
    (∀ r c : Fin 9, solvedGrid r c ≤ 9) ∧ validGrid solvedGrid ∧
      ∃ res : Option Grid, solveLoop (stackMeasure [solvedGrid]) [solvedGrid] = some res ∧
        ∀ fuel, stackMeasure [solvedGrid] ≤ fuel → solveLoop fuel [solvedGrid] = some res :=
  ⟨by decide, by decide, (C5_search_terminates solvedGrid (by decide) (by decide)).1⟩

/-- Claim C6 counterexample: the claim says the cell-to-box mapping returns a
box index in the range 0..8, but the code's boxes are 1-indexed (per its own
comment): at cell (8, 8) `which_box` returns 9, which is not ≤ 8. -/
theorem C6_box_range_counterexample :
    which_box 8 8 = 9 ∧ ¬(which_box 8 8 ≤ 8) := by decide

/-- Claim C6 (amended): `which_box` is a pure total function on rows 0..8 and
columns 0..8 returning a box index in the range 1..9; for every box index the
member-cell set has exactly 9 distinct cells, and a cell belongs to box `b`
iff `which_box` maps it to `b` — so the nine boxes partition the 81 cells. -/
theorem C6_box_partition_amended :
    (∀ r c : Fin 9, 1 ≤ which_box r c ∧ which_box r c ≤ 9)
    ∧ (∀ b : Fin 9, (boxCells (b.val + 1)).length = 9 ∧ (boxCells (b.val + 1)).Nodup)
    ∧ ∀ (p : Fin 9 × Fin 9) (b : Fin 9),
        p ∈ boxCells (b.val + 1) ↔ which_box p.1 p.2 = b.val + 1 := by
  refine ⟨by decide, by decide, ?_⟩
  intro p b
  exact boxCells_whichBox b p

/-- Claim C7: exhaustion is reported as the ordinary return value `None`
(never an exception): on an empty stack the loop returns `None`, and for a
grid whose selected empty cell admits no legal digit, `gen_possible_boards`
is empty, nothing is pushed, and the engine returns `None`. -/
theorem C7_exhaustion_returns_none (g : Grid) (row col : Fin 9)
    (hnext : next_unassigned_cell g = some (row, col))
    (hdead : ∀ d : Nat, 1 ≤ d → d ≤ 9 → move_is_valid g d row col = false) :
    gen_possible_boards g row col = [] ∧
      (∀ fuel : Nat, solveLoop fuel [] = some none) ∧
      (∀ fuel : Nat, solveLoop (fuel + 1) [g] = some none) ∧
      solve_backtracking g = none := by
  have hgen : gen_possible_boards g row col = [] := by
    unfold gen_possible_boards
    rw [List.filterMap_eq_nil_iff]
    intro a ha
    rw [List.mem_range'_1] at ha
    have hfa := hdead a ha.1 (by omega)
    simp [hfa]
  have hz : g row col = 0 := next_cell_zero hnext
  have hfull : board_is_full g = false := by
    cases hb : board_is_full g
    · rfl
    · exact absurd hz (board_is_full_iff.1 hb row col)
  have hloop : ∀ fuel : Nat, solveLoop (fuel + 1) [g] = some none := by
    intro fuel
    rw [solveLoop_step fuel [] hfull hnext, hgen]
    exact solveLoop_nil fuel
  refine ⟨hgen, solveLoop_nil, hloop, ?_⟩
  unfold solve_backtracking
  have h1 : 1 ≤ stackMeasure [g] := by
    have hb := boardMeasure_pos g
    rw [stackMeasure_cons]
    omega
  obtain ⟨f, hf⟩ : ∃ f, stackMeasure [g] = f + 1 := ⟨stackMeasure [g] - 1, by omega⟩
  rw [hf, hloop f]
  rfl

theorem C7_exhaustion_returns_none_witness :
    next_unassigned_cell deadGrid = some (0, 0) ∧ solve_backtracking deadGrid = none := by
  refine ⟨by decide, ?_⟩
  exact (C7_exhaustion_returns_none deadGrid 0 0 (by decide)
    (by intro d h1 h9; interval_cases d <;> decide)).2.2.2

/-- Claim C8: for every grid, empty cell `(row, col)` and legal digit `d`, the
corresponding child generated by `gen_possible_boards` holds `d` at
`(row, col)` and agrees with the parent everywhere else (each child is an
independent copy built by `setCell`; the parent, a pure value, is untouched);
conversely every generated child has this shape for some legal digit. -/
theorem C8_children_frame (g : Grid) (row col : Fin 9) (d : Nat)
    (_h0 : g row col = 0) (h1 : 1 ≤ d) (h9 : d ≤ 9)
    (hlegal : move_is_valid g d row col = true) :
    (setCell g row col d ∈ gen_possible_boards g row col
        ∧ setCell g row col d row col = d
        ∧ ∀ r' c' : Fin 9, ¬(r' = row ∧ c' = col) → setCell g row col d r' c' = g r' c')
      ∧ ∀ b ∈ gen_possible_boards g row col, ∃ d' : Nat, 1 ≤ d' ∧ d' ≤ 9
          ∧ move_is_valid g d' row col = true ∧ b row col = d'
          ∧ ∀ r' c' : Fin 9, ¬(r' = row ∧ c' = col) → b r' c' = g r' c' := by
  constructor
  · refine ⟨mem_gen_iff.2 ⟨d, h1, h9, hlegal, rfl⟩, setCell_same, ?_⟩
    intro r' c' hne
    exact setCell_other hne
  · intro b hb
    obtain ⟨d', hd1, hd9, hdv, rfl⟩ := mem_gen_iff.1 hb
    exact ⟨d', hd1, hd9, hdv, setCell_same, fun r' c' hne => setCell_other hne⟩

theorem C8_children_frame_witness :
    oneGrid 0 1 = 0 ∧ 1 ≤ 2 ∧ 2 ≤ 9 ∧ move_is_valid oneGrid 2 0 1 = true ∧
      setCell oneGrid 0 1 2 ∈ gen_possible_boards oneGrid 0 1 ∧
      setCell oneGrid 0 1 2 0 1 = 2 :=
  have h := C8_children_frame oneGrid 0 1 2 (by decide) (by decide) (by decide) (by decide)
  ⟨by decide, by decide, by decide, by decide, h.1.1, h.1.2.1⟩

/-- Claim C9: an initial grid that is already full (no zero entries) and valid
is returned unchanged after a single pop: even with zero remaining fuel after
that pop the loop returns it, so no branching step ever runs. -/
theorem C9_full_board_immediate (g : Grid)
    (h0 : ∀ r c : Fin 9, g r c ≠ 0) (_hv : validGrid g) :
    solve_backtracking g = some g ∧
      ∀ fuel : Nat, solveLoop (fuel + 1) [g] = some (some g) := by
  have hfull : board_is_full g = true := board_is_full_iff.2 h0
  exact ⟨solve_backtracking_full hfull, fun fuel => solveLoop_full fuel [] hfull⟩

theorem C9_full_board_immediate_witness :
    (∀ r c : Fin 9, solvedGrid r c ≠ 0) ∧ validGrid solvedGrid ∧
      solve_backtracking solvedGrid = some solvedGrid :=
  ⟨by decide, by decide, (C9_full_board_immediate solvedGrid (by decide) (by decide)).1⟩

/-- Claim C10 counterexample: the claim fails on non-ASCII input because
Python's `str.isdigit` and `int` are Unicode-aware. For the 81-character
string `'٣'` (U+0663, a character other than `'1'`..`'9'`) followed by 80
`'0'`s, parsing succeeds but cell (0, 0) holds 3, not 0; and for `'²'`
(U+00B2, `isdigit` but not a decimal digit) followed by 80 `'0'`s, `int`
raises `ValueError`, so `parse_from_string` does not succeed at all. -/
theorem C10_parse_counterexample :
    81 ≤ ('٣' :: List.replicate 80 '0').length
    ∧ ¬('1' ≤ '٣' ∧ '٣' ≤ '9')
    ∧ (parse_from_string ('٣' :: List.replicate 80 '0')).isSome = true
    ∧ ((parse_from_string ('٣' :: List.replicate 80 '0')).getD (fun _ _ => 0)) 0 0 = 3
    ∧ ((parse_from_string ('٣' :: List.replicate 80 '0')).getD (fun _ _ => 0)) 0 0 ≠ 0
    ∧ parse_from_string ('²' :: List.replicate 80 '0') = none := by
  refine ⟨by decide, by decide, by decide, by decide, by decide, by decide⟩

/-- Claim C10 (amended): for every input string of length at least 81 whose
first 81 characters are ASCII, `parse_from_string` succeeds and returns a
grid with entries in 0..9 in which the `i`-th of the first 81 characters
fills cell `(i / 9, i % 9)`: the characters `'1'`..`'9'` give the
corresponding digit and every other ASCII character — including `'0'` —
gives 0. -/
theorem C10_parse_maps_row_major_ascii (s : List Char) (hlen : 81 ≤ s.length)
    (hascii : ∀ i : Fin 81, (s.get ⟨i.val, by have := i.isLt; omega⟩).toNat < 128) :
    ∃ g : Grid, parse_from_string s = some g
      ∧ (∀ r c : Fin 9, g r c ≤ 9)
      ∧ ∀ i : Fin 81,
          g ⟨i.val / 9, by have hi := i.isLt; omega⟩ ⟨i.val % 9, Nat.mod_lt _ (by norm_num)⟩
            = if '1' ≤ s.getD i.val ' ' ∧ s.getD i.val ' ' ≤ '9'
                then (s.getD i.val ' ').toNat - '0'.toNat else 0 := by
  have hall : (List.finRange 81).all
      (fun i => (charCell (s.get ⟨i.val, by have := i.isLt; omega⟩)).isSome) = true := by
    rw [List.all_eq_true]
    intro i _
    rw [charCell_ascii _ (hascii i)]
    rfl
  refine ⟨fun r c =>
      (charCell (s.get ⟨9 * r.val + c.val, by
        have hr := r.isLt; have hc := c.isLt; omega⟩)).getD 0,
    ?_, ?_, ?_⟩
  · unfold parse_from_string
    rw [dif_pos hlen, if_pos hall]
  · intro r c
    have hi : 9 * r.val + c.val < 81 := by have hr := r.isLt; have hc := c.isLt; omega
    have hb : 9 * r.val + c.val < s.length := by omega
    have ha : (s.get ⟨9 * r.val + c.val, hb⟩).toNat < 128 :=
      hascii ⟨9 * r.val + c.val, hi⟩
    show (charCell (s.get ⟨9 * r.val + c.val, hb⟩)).getD 0 ≤ 9
    rw [charCell_ascii _ ha, Option.getD_some]
    exact digitValue_le _
  · intro i
    have hi : i.val < 81 := i.isLt
    have hbound : 9 * (i.val / 9) + i.val % 9 < s.length := by omega
    have h2 : i.val < s.length := by omega
    have hget : s.get ⟨9 * (i.val / 9) + i.val % 9, hbound⟩ = s.getD i.val ' ' := by
      rw [List.getD_eq_getElem s ' ' h2, List.get_eq_getElem]
      congr 1
      exact Nat.div_add_mod i.val 9
    have ha : (s.get ⟨9 * (i.val / 9) + i.val % 9, hbound⟩).toNat < 128 :=
      hascii ⟨9 * (i.val / 9) + i.val % 9, by omega⟩
    show (charCell (s.get ⟨9 * (i.val / 9) + i.val % 9, hbound⟩)).getD 0 = _
    rw [charCell_ascii _ ha, Option.getD_some, hget]

theorem C10_parse_maps_row_major_ascii_witness :
    81 ≤ (List.replicate 81 '0').length
    ∧ (∀ i : Fin 81,
        ((List.replicate 81 '0').get ⟨i.val, by simp⟩).toNat < 128)
    ∧ ∃ g : Grid, parse_from_string (List.replicate 81 '0') = some g
        ∧ (∀ r c : Fin 9, g r c ≤ 9)
        ∧ ∀ i : Fin 81,
            g ⟨i.val / 9, by have hi := i.isLt; omega⟩
                ⟨i.val % 9, Nat.mod_lt _ (by norm_num)⟩
              = if '1' ≤ (List.replicate 81 '0').getD i.val ' '
                    ∧ (List.replicate 81 '0').getD i.val ' ' ≤ '9'
                  then ((List.replicate 81 '0').getD i.val ' ').toNat - '0'.toNat else 0 :=
  ⟨by simp, by decide,
    C10_parse_maps_row_major_ascii (List.replicate 81 '0') (by simp) (by decide)⟩

example : which_box 0 0 = 1 := by decide
example : which_box 8 8 = 9 := by decide
example : next_unassigned_cell oneGrid = some (0, 1) := by decide
example : next_unassigned_cell deadGrid = some (0, 0) := by decide
example : board_is_full solvedGrid = true := by decide
example : validGrid oneGrid := by decide

end SudokuSolver
